import Mathlib

/-!
# Verification of `react-console` (tur-nr/react-console)

`src/index.js` of the repository contains two revisions of the module,
separated by a document separator:

* the first listing (referred to below as `RC1`): supports `img` elements,
  appends anchor `href`s, styles anchors blue, performs no tag validation,
  and its `render` does not catch errors;
* the second listing (referred to below as `RC2`): validates tags against an
  inline-element allow-list, wraps `updateContainer` in `try`/`catch`,
  throws from `prepareForCommit` on a second commit, flattens `br` to a bare
  newline, and uses a first-match-only regular expression when hyphenating
  CSS property names.

Both revisions are embedded below, faithfully to their JavaScript sources.
JavaScript objects used as style maps are modelled as insertion-ordered
association lists (`Style`), matching the `for … in` iteration order of
string-keyed objects; `Object.assign` is modelled by `objAssign`.
-/

set_option maxHeartbeats 1000000

/-- A JavaScript object used as a CSS style map: an insertion-ordered list of
`(property, value)` pairs.  All values are modelled by the string JavaScript
would coerce them to when concatenated (the only use the source makes of
them). -/
abbrev Style := List (String × String)

/-- Assigning `m[k] = v` on a JavaScript object: if the key is present its
value is updated in place (keeping its position in insertion order),
otherwise the pair is appended. -/
def objInsert (m : Style) (k v : String) : Style :=
  if m.any (fun p => p.1 = k) then
    m.map (fun p => if p.1 = k then (k, v) else p)
  else
    m ++ [(k, v)]

/-- `Object.assign(a, b)` (also `Object.assign({}, a, b)` up to copying `a`):
every entry of `b` is assigned onto `a` in `b`'s iteration order. -/
def objAssign (a b : Style) : Style :=
  b.foldl (fun m p => objInsert m p.1 p.2) a

/-- Property lookup `m[k]` on a style object (the value at the first —
for well-formed objects, only — entry with the given key). -/
def objGet : Style → String → Option String
  | [], _ => none
  | (k0, v0) :: rest, k => if k0 = k then some v0 else objGet rest k

/-- A JavaScript value appearing in an element prop slot (used for the
`width`/`height`/`src` props of `img`): a string, a number, or `undefined`. -/
inductive JSDim where
  | str (s : String)
  | num (n : Int)
  | undef
deriving DecidableEq, Repr

/-- JavaScript string coercion of a prop value, as produced by `+` with a
string. -/
def jsStr : JSDim → String
  | .str s => s
  | .num n => toString n
  | .undef => "undefined"

/-- The props of a host element that the source reads: `style`, `href` (for
anchors) and `width`/`height`/`src` (for images).  A missing prop is `none`
(respectively `.undef` for the image dimensions). -/
structure Props where
  href : Option String := none
  width : JSDim := .undef
  height : JSDim := .undef
  src : JSDim := .undef
  style : Style := []
deriving DecidableEq, Repr

/-- A committed host node: either a text instance (`createTextInstance`
returns the raw string) or an element instance as built by `createInstance`
(`{ type, props, style, children }`; the second revision does not store
`props` on the instance, and its flattener accordingly never reads it). -/
inductive Node where
  | text (s : String)
  | inst (type : String) (props : Props) (style : Style) (children : List Node)

mutual

/-- Size of a node, used as the termination measure of the flatteners. -/
def nsize : Node → Nat
  | .text _ => 1
  | .inst _ _ _ cs => 2 + lsize cs

/-- Size of a child list. -/
def lsize : List Node → Nat
  | [] => 0
  | c :: r => nsize c + lsize r

end

theorem nsize_pos (n : Node) : 1 ≤ nsize n := by
  cases n
  · simp [nsize]
  · simp [nsize]
    omega

theorem lsize_cons (c : Node) (r : List Node) :
    lsize (c :: r) = nsize c + lsize r := by
  simp [lsize]


/-- Insert a hyphen before every upper-case ASCII letter
(the first revision's `prop.replace(/([A-Z])/g, "-$1")`). -/
def hyphenateAll : List Char → List Char
  | [] => []
  | c :: rest =>
      if c.isUpper then '-' :: c :: hyphenateAll rest else c :: hyphenateAll rest

/-- Insert a hyphen between the first lower-case/upper-case ASCII letter pair
only (the second revision's `prop.replace(/([a-z])([A-Z])/, "$1-$2")`: the
regular expression has no `g` flag, so only the first match is replaced). -/
def hyphenFirst : List Char → List Char
  | [] => []
  | [c] => [c]
  | a :: b :: rest =>
      if a.isLower ∧ b.isUpper then a :: '-' :: b :: rest
      else a :: hyphenFirst (b :: rest)

namespace RC1

/-- CSS property-name conversion of the first revision:
`prop.replace(/([A-Z])/g, "-$1").toLowerCase()`. -/
def cssProp (p : String) : String :=
  String.mk ((hyphenateAll p.data).map Char.toLower)

/-- `toCSSString` of the first revision: serialize a style object into
`property:value;` segments in iteration order. -/
def toCSSString (style : Style) : String :=
  style.foldl (fun acc kv => acc ++ cssProp kv.1 ++ ":" ++ kv.2 ++ ";") ""

/-- `styleForType` of the first revision: default styles per element type
(anchors are blue and images are supported in this revision). -/
def styleForType (type : String) (props : Props) : Style :=
  if type = "a" then [("color", "blue")]
  else if type = "abbr" then
    [("textDecoration", "underline dotted"), ("fontStyle", "italic"),
     ("fontWeight", "lighter")]
  else if type = "b" ∨ type = "strong" then [("fontWeight", "bolder")]
  else if type = "del" ∨ type = "s" then [("textDecoration", "line-through")]
  else if type = "em" ∨ type = "i" then [("fontStyle", "italic")]
  else if type = "img" then
    [("fontSize", "0"),
     ("paddingLeft",
       match props.width with
       | .str s => s
       | w => jsStr w ++ "px"),
     ("paddingTop",
       match props.height with
       | .str s => s
       | h => jsStr h ++ "px"),
     ("backgroundImage", "url(" ++ jsStr props.src ++ ")")]
  else if type = "ins" ∨ type = "u" then [("textDecoration", "underline")]
  else if type = "mark" then [("backgroundColor", "yellow"), ("color", "black")]
  else if type = "small" then [("fontSize", "smaller")]
  else if type = "sub" then [("fontSize", "smaller"), ("verticalAlign", "sub")]
  else if type = "sup" then [("fontSize", "smaller"), ("verticalAlign", "super")]
  else []

/-- `createInstance` of the first revision: no validation; the instance's
style is the type's default style overridden by the `style` prop. -/
def createInstance (type : String) (props : Props) : Node :=
  .inst type props (objAssign (styleForType type props) props.style) []

end RC1

namespace RC2

/-- CSS property-name conversion of the second revision (first-match-only
regular expression). -/
def cssProp (p : String) : String :=
  String.mk ((hyphenFirst p.data).map Char.toLower)

/-- `toCSSString` of the second revision. -/
def toCSSString (style : Style) : String :=
  style.foldl (fun acc kv => acc ++ cssProp kv.1 ++ ":" ++ kv.2 ++ ";") ""

/-- `styleForType` of the second revision: no `a`/`img` cases, and the
literal value `"italics"` for the italic font style. -/
def styleForType (type : String) : Style :=
  if type = "abbr" then
    [("textDecoration", "underline dotted"), ("fontStyle", "italics"),
     ("fontWeight", "lighter")]
  else if type = "b" ∨ type = "strong" then [("fontWeight", "bolder")]
  else if type = "del" ∨ type = "s" then [("textDecoration", "line-through")]
  else if type = "em" ∨ type = "i" then [("fontStyle", "italics")]
  else if type = "ins" ∨ type = "u" then [("textDecoration", "underline")]
  else if type = "mark" then [("backgroundColor", "yellow"), ("color", "black")]
  else if type = "small" then [("fontSize", "smaller")]
  else if type = "sub" then [("fontSize", "smaller"), ("verticalAlign", "sub")]
  else if type = "sup" then [("fontSize", "smaller"), ("verticalAlign", "super")]
  else []

/-- The fixed allow-list of inline element tags of the second revision. -/
def inlineElements : List String :=
  ["a", "abbr", "b", "bdi", "bdo", "br", "cite", "code", "data", "dfn",
   "em", "i", "kbd", "mark", "q", "rb", "rp", "rt", "rtc", "ruby",
   "s", "samp", "small", "span", "strong", "sub", "sup", "time", "u",
   "var", "wbr"]

/-- `createInstance` of the second revision: throws
`"Invalid element: <tag> is not an inline element."` for a tag outside the
allow-list, otherwise builds the instance.  (The JavaScript instance does not
store `props`; we keep the field on the shared `Node` type, and this
revision's flattener never reads it.) -/
def createInstance (type : String) (props : Props) : Except String Node :=
  if inlineElements.contains type then
    .ok (.inst type props (objAssign (styleForType type) props.style) [])
  else
    .error ("Invalid element: " ++ type ++ " is not an inline element.")

end RC2

/-- `appendInitialChild` (both revisions): push a child onto the parent's
child list.  (On a text instance JavaScript would have no `children` array;
the reconciler never does this, and we make it the identity.) -/
def appendInitialChild (parent child : Node) : Node :=
  match parent with
  | .inst t p s cs => .inst t p s (cs ++ [child])
  | .text s => .text s

namespace RC1

/-- The `switch (child.type)` of the first revision's flattener: a `br`
replaces the child list to be traversed by a single newline text, an `img`
by a single space text; every other type keeps the child's own children. -/
def switchChildren (type : String) (cs : List Node) : List Node :=
  if type = "br" then [Node.text "\n"]
  else if type = "img" then [Node.text " "]
  else cs

/-- What the first revision appends after an anchor's children:
`if (child.type === "a" && child.props.href) string += " " + child.props.href`
(an empty `href` is falsy and appends nothing). -/
def hrefSuffix (type : String) (props : Props) : String :=
  if type = "a" then
    match props.href with
    | some h => if h = "" then "" else " " ++ h
    | none => ""
  else ""

theorem lsize_switchChildren_le (type : String) (cs : List Node) :
    lsize (switchChildren type cs) ≤ 1 + lsize cs := by
  unfold switchChildren
  split
  · simp [lsize, nsize]
  · split
    · simp [lsize, nsize]
    · omega

/-- The flattener of the first revision (`recursivelyConcatenate`): walks the
child list, appending `"%c" + text` and pushing the serialized inherited
style for each text instance, and recursing into element instances with the
merged style, after rewriting the traversed children of `br`/`img` and
appending anchor `href`s. -/
def recursivelyConcatenate : List Node → String → Style → List String →
    String × List String
  | [], string, _, subs => (string, subs)
  | .text s :: rest, string, style, subs =>
      recursivelyConcatenate rest (string ++ "%c" ++ s) style
        (subs ++ [toCSSString style])
  | .inst type props st cs :: rest, string, style, subs =>
      let inner :=
        recursivelyConcatenate (switchChildren type cs) string
          (objAssign style st) subs
      recursivelyConcatenate rest (inner.1 ++ hrefSuffix type props) style
        inner.2
termination_by cs _ _ _ => lsize cs
decreasing_by
  · simp [lsize_cons, nsize]
  · have h := lsize_switchChildren_le type cs
    simp [lsize_cons, nsize]
    omega
  · simp [lsize_cons, nsize]

end RC1

namespace RC2

/-- The flattener of the second revision: only `br` is special-cased (to a
bare newline, with no recursion and no substitution); all other element
instances are traversed with the merged style. -/
def recursivelyConcatenate : List Node → String → Style → List String →
    String × List String
  | [], string, _, subs => (string, subs)
  | .text s :: rest, string, style, subs =>
      recursivelyConcatenate rest (string ++ "%c" ++ s) style
        (subs ++ [toCSSString style])
  | .inst type _ st cs :: rest, string, style, subs =>
      if type = "br" then
        recursivelyConcatenate rest (string ++ "\n") style subs
      else
        let inner := recursivelyConcatenate cs string (objAssign style st) subs
        recursivelyConcatenate rest inner.1 style inner.2
termination_by cs _ _ _ => lsize cs
decreasing_by
  all_goals simp [lsize_cons, nsize]
  all_goals omega

end RC2

/-- Number of occurrences of the placeholder pair `%c` in a character list
(counted over a sliding window of width two; occurrences cannot overlap
since the two characters differ). -/
def countMarkers : List Char → Nat
  | [] => 0
  | [_] => 0
  | a :: b :: rest => (if a = '%' ∧ b = 'c' then 1 else 0) + countMarkers (b :: rest)

theorem countMarkers_cons_of_ne (x : Char) (l : List Char) (h : x ≠ '%') :
    countMarkers (x :: l) = countMarkers l := by
  cases l with
  | nil => simp [countMarkers]
  | cons y t => simp [countMarkers, h]

theorem countMarkers_append : ∀ (xs ys : List Char),
    (∀ c, ys.head? = some c → c ≠ 'c') →
    countMarkers (xs ++ ys) = countMarkers xs + countMarkers ys
  | [], ys, _ => by simp [countMarkers]
  | [a], ys, h => by
      cases ys with
      | nil => simp [countMarkers]
      | cons y t =>
          have hy : y ≠ 'c' := h y rfl
          simp [countMarkers, hy]
  | a :: b :: rest, ys, h => by
      have ih := countMarkers_append (b :: rest) ys h
      simp only [List.cons_append] at ih ⊢
      simp only [countMarkers, ih]
      omega

theorem countMarkers_pc (l : List Char) :
    countMarkers ('%' :: 'c' :: l) = 1 + countMarkers l := by
  have h : countMarkers ('c' :: l) = countMarkers l :=
    countMarkers_cons_of_ne 'c' l (by decide)
  simp [countMarkers, h]

mutual

/-- A node carries no literal `%c` pair in its text or its `href` prop.
(Such a pair would itself be interpreted as a substitution marker by the
console.) -/
def pcFreeN : Node → Bool
  | .text s => countMarkers s.data == 0
  | .inst _ props _ cs =>
      (match props.href with
       | some h => countMarkers h.data == 0
       | none => true) && pcFreeL cs

/-- All nodes of a child list are free of literal `%c` pairs. -/
def pcFreeL : List Node → Bool
  | [] => true
  | c :: r => pcFreeN c && pcFreeL r

end

namespace RC1

/-- The format string produced by flattening a child list from an empty
accumulator. -/
def flatStr (cs : List Node) (style : Style) : String :=
  (recursivelyConcatenate cs "" style []).1

/-- The substitution list produced by flattening a child list from an empty
accumulator. -/
def flatSubs (cs : List Node) (style : Style) : List String :=
  (recursivelyConcatenate cs "" style []).2

theorem rc_acc (n : Nat) : ∀ cs : List Node, lsize cs ≤ n →
    ∀ (string : String) (style : Style) (subs : List String),
    recursivelyConcatenate cs string style subs
      = (string ++ flatStr cs style, subs ++ flatSubs cs style) := by
  induction n with
  | zero =>
      intro cs h string style subs
      match cs with
      | [] => simp [recursivelyConcatenate, flatStr, flatSubs]
      | c :: rest =>
          exfalso
          have h1 := nsize_pos c
          have h2 := lsize_cons c rest
          omega
  | succ n ih =>
      intro cs h string style subs
      match cs with
      | [] => simp [recursivelyConcatenate, flatStr, flatSubs]
      | .text s :: rest =>
          have hr : lsize rest ≤ n := by
            have h2 := lsize_cons (.text s) rest
            simp [nsize] at h2
            omega
          simp only [recursivelyConcatenate, flatStr, flatSubs]
          rw [ih rest hr, ih rest hr]
          simp [String.append_assoc, String.empty_append]
      | .inst type props st cs' :: rest =>
          have h2 := lsize_cons (.inst type props st cs') rest
          have h3 : nsize (.inst type props st cs') = 2 + lsize cs' := by
            simp [nsize]
          have hsw : lsize (switchChildren type cs') ≤ n := by
            have h4 := lsize_switchChildren_le type cs'
            omega
          have hr : lsize rest ≤ n := by omega
          simp only [recursivelyConcatenate, flatStr, flatSubs]
          rw [ih _ hsw, ih rest hr, ih _ hsw, ih rest hr]
          simp [String.append_assoc, String.empty_append]

theorem flatStr_nil (style : Style) : flatStr [] style = "" := by
  simp [flatStr, recursivelyConcatenate]

theorem flatSubs_nil (style : Style) : flatSubs [] style = [] := by
  simp [flatSubs, recursivelyConcatenate]

theorem flatStr_text (s : String) (rest : List Node) (style : Style) :
    flatStr (.text s :: rest) style = "%c" ++ s ++ flatStr rest style := by
  conv_lhs => simp only [flatStr, recursivelyConcatenate]
  rw [rc_acc (lsize rest) rest (Nat.le_refl _)]
  simp [String.empty_append, String.append_assoc]

theorem flatSubs_text (s : String) (rest : List Node) (style : Style) :
    flatSubs (.text s :: rest) style
      = toCSSString style :: flatSubs rest style := by
  conv_lhs => simp only [flatSubs, recursivelyConcatenate]
  rw [rc_acc (lsize rest) rest (Nat.le_refl _)]
  simp

theorem flatStr_inst (type : String) (props : Props) (st : Style)
    (cs rest : List Node) (style : Style) :
    flatStr (.inst type props st cs :: rest) style
      = flatStr (switchChildren type cs) (objAssign style st)
        ++ hrefSuffix type props ++ flatStr rest style := by
  conv_lhs => simp only [flatStr, recursivelyConcatenate]
  rw [rc_acc (lsize (switchChildren type cs)) _ (Nat.le_refl _),
      rc_acc (lsize rest) rest (Nat.le_refl _)]
  simp [String.empty_append, String.append_assoc]

theorem flatSubs_inst (type : String) (props : Props) (st : Style)
    (cs rest : List Node) (style : Style) :
    flatSubs (.inst type props st cs :: rest) style
      = flatSubs (switchChildren type cs) (objAssign style st)
        ++ flatSubs rest style := by
  conv_lhs => simp only [flatSubs, recursivelyConcatenate]
  rw [rc_acc (lsize (switchChildren type cs)) _ (Nat.le_refl _),
      rc_acc (lsize rest) rest (Nat.le_refl _)]
  simp

end RC1

theorem head_of_append_cases (A B : List Char) (c : Char)
    (h : (A ++ B).head? = some c) :
    A.head? = some c ∨ (A = [] ∧ B.head? = some c) := by
  cases A with
  | nil => right; exact ⟨rfl, by simpa using h⟩
  | cons a t => left; simpa using h

namespace RC1

theorem hrefSuffix_head (type : String) (props : Props) (c : Char)
    (h : (hrefSuffix type props).data.head? = some c) : c = ' ' := by
  by_cases ht : type = "a"
  · cases hh : props.href with
    | some s =>
        by_cases hs : s = ""
        · simp [hrefSuffix, ht, hh, hs] at h
        · have h2 : hrefSuffix type props = " " ++ s := by
            simp [hrefSuffix, ht, hh, hs]
          rw [h2, String.data_append] at h
          have h3 : ((" " : String).data ++ s.data).head? = some ' ' := rfl
          exact (Option.some_inj.mp (h3.symm.trans h)).symm
    | none => simp [hrefSuffix, ht, hh] at h
  · simp [hrefSuffix, ht] at h

theorem hrefSuffix_markers (type : String) (props : Props)
    (hfree : (match props.href with
              | some h => countMarkers h.data == 0
              | none => true) = true) :
    countMarkers (hrefSuffix type props).data = 0 := by
  by_cases ht : type = "a"
  · cases hh : props.href with
    | some s =>
        rw [hh] at hfree
        simp only [beq_iff_eq] at hfree
        by_cases hs : s = ""
        · simp [hrefSuffix, ht, hh, hs, countMarkers]
        · have h2 : hrefSuffix type props = " " ++ s := by
            simp [hrefSuffix, ht, hh, hs]
          rw [h2, String.data_append]
          have h0 : (" " : String).data = [' '] := rfl
          rw [h0, List.singleton_append,
              countMarkers_cons_of_ne ' ' s.data (by decide)]
          exact hfree
    | none => simp [hrefSuffix, ht, hh, countMarkers]
  · simp [hrefSuffix, ht, countMarkers]

theorem flatStr_head (n : Nat) : ∀ cs, lsize cs ≤ n → ∀ (style : Style)
    (c : Char), (flatStr cs style).data.head? = some c → c ≠ 'c' := by
  induction n with
  | zero =>
      intro cs h style c hc
      match cs with
      | [] => rw [flatStr_nil] at hc; simp at hc
      | d :: rest =>
          exfalso
          have h1 := nsize_pos d
          have h2 := lsize_cons d rest
          omega
  | succ n ih =>
      intro cs h style c hc
      match cs with
      | [] => rw [flatStr_nil] at hc; simp at hc
      | .text s :: rest =>
          rw [flatStr_text, String.data_append, String.data_append] at hc
          have : (("%c" : String).data) = ['%', 'c'] := rfl
          rw [this] at hc
          simp at hc
          rw [← hc]
          decide
      | .inst type props st cs' :: rest =>
          have h2 := lsize_cons (.inst type props st cs') rest
          have h3 : nsize (.inst type props st cs') = 2 + lsize cs' := by
            simp [nsize]
          have hsw : lsize (switchChildren type cs') ≤ n := by
            have h4 := lsize_switchChildren_le type cs'
            omega
          have hr : lsize rest ≤ n := by omega
          rw [flatStr_inst, String.data_append, String.data_append] at hc
          rcases head_of_append_cases _ _ _ hc with h5 | ⟨_, h5⟩
          · rcases head_of_append_cases _ _ _ h5 with h6 | ⟨_, h6⟩
            · exact ih _ hsw _ c h6
            · have := hrefSuffix_head type props c h6
              rw [this]; decide
          · exact ih rest hr style c h5


theorem pcFreeL_switchChildren (type : String) (cs : List Node)
    (h : pcFreeL cs = true) : pcFreeL (switchChildren type cs) = true := by
  unfold switchChildren
  split
  · have h1 : ("\n" : String).data = ['\n'] := rfl
    simp [pcFreeL, pcFreeN, h1, countMarkers]
  · split
    · have h1 : (" " : String).data = [' '] := rfl
      simp [pcFreeL, pcFreeN, h1, countMarkers]
    · exact h

theorem flat_markers (n : Nat) : ∀ cs, lsize cs ≤ n → ∀ style : Style,
    pcFreeL cs = true →
    countMarkers (flatStr cs style).data = (flatSubs cs style).length := by
  induction n with
  | zero =>
      intro cs h style _
      match cs with
      | [] => simp [flatStr_nil, flatSubs_nil, countMarkers]
      | d :: rest =>
          exfalso
          have h1 := nsize_pos d
          have h2 := lsize_cons d rest
          omega
  | succ n ih =>
      intro cs h style hfree
      match cs with
      | [] => simp [flatStr_nil, flatSubs_nil, countMarkers]
      | .text s :: rest =>
          have hr : lsize rest ≤ n := by
            have h2 := lsize_cons (.text s) rest
            simp [nsize] at h2
            omega
          simp only [pcFreeL, pcFreeN, Bool.and_eq_true, beq_iff_eq] at hfree
          rw [flatStr_text, flatSubs_text, String.data_append,
              String.data_append]
          have hpc : ("%c" : String).data = ['%', 'c'] := rfl
          rw [hpc, List.append_assoc]
          have hco : (['%', 'c'] ++ (s.data ++ (flatStr rest style).data))
              = '%' :: 'c' :: (s.data ++ (flatStr rest style).data) := rfl
          rw [hco, countMarkers_pc,
              countMarkers_append s.data (flatStr rest style).data
                (fun c hc => flatStr_head (lsize rest) rest (Nat.le_refl _)
                  style c hc),
              hfree.1, ih rest hr style hfree.2]
          simp
          omega
      | .inst type props st cs' :: rest =>
          have h2 := lsize_cons (.inst type props st cs') rest
          have h3 : nsize (.inst type props st cs') = 2 + lsize cs' := by
            simp [nsize]
          have hsw : lsize (switchChildren type cs') ≤ n := by
            have h4 := lsize_switchChildren_le type cs'
            omega
          have hr : lsize rest ≤ n := by omega
          simp only [pcFreeL, pcFreeN, Bool.and_eq_true] at hfree
          rw [flatStr_inst, flatSubs_inst, String.data_append,
              String.data_append]
          rw [countMarkers_append _ (flatStr rest style).data
                (fun c hc => flatStr_head (lsize rest) rest (Nat.le_refl _)
                  style c hc),
              countMarkers_append _ (hrefSuffix type props).data
                (fun c hc => by
                  rw [hrefSuffix_head type props c hc]
                  decide),
              hrefSuffix_markers type props hfree.1.1,
              ih _ hsw _ (pcFreeL_switchChildren type cs' hfree.1.2),
              ih rest hr style hfree.2]
          simp

end RC1

namespace RC2

/-- The format string produced by the second revision's flattener from an
empty accumulator. -/
def flatStr (cs : List Node) (style : Style) : String :=
  (recursivelyConcatenate cs "" style []).1

/-- The substitution list produced by the second revision's flattener from an
empty accumulator. -/
def flatSubs (cs : List Node) (style : Style) : List String :=
  (recursivelyConcatenate cs "" style []).2

theorem rc_acc_v2 (n : Nat) : ∀ cs : List Node, lsize cs ≤ n →
    ∀ (string : String) (style : Style) (subs : List String),
    recursivelyConcatenate cs string style subs
      = (string ++ flatStr cs style, subs ++ flatSubs cs style) := by
  induction n with
  | zero =>
      intro cs h string style subs
      match cs with
      | [] => simp [recursivelyConcatenate, flatStr, flatSubs]
      | c :: rest =>
          exfalso
          have h1 := nsize_pos c
          have h2 := lsize_cons c rest
          omega
  | succ n ih =>
      intro cs h string style subs
      match cs with
      | [] => simp [recursivelyConcatenate, flatStr, flatSubs]
      | .text s :: rest =>
          have hr : lsize rest ≤ n := by
            have h2 := lsize_cons (.text s) rest
            simp [nsize] at h2
            omega
          simp only [recursivelyConcatenate, flatStr, flatSubs]
          rw [ih rest hr, ih rest hr]
          simp [String.append_assoc, String.empty_append]
      | .inst type props st cs' :: rest =>
          have h2 := lsize_cons (.inst type props st cs') rest
          have h3 : nsize (.inst type props st cs') = 2 + lsize cs' := by
            simp [nsize]
          have hcs : lsize cs' ≤ n := by omega
          have hr : lsize rest ≤ n := by omega
          by_cases hbr : type = "br"
          · simp only [recursivelyConcatenate, flatStr, flatSubs, hbr,
              if_true]
            rw [ih rest hr, ih rest hr]
            simp [String.append_assoc, String.empty_append]
          · simp only [recursivelyConcatenate, flatStr, flatSubs, hbr,
              if_false]
            rw [ih cs' hcs, ih rest hr, ih cs' hcs, ih rest hr]
            simp [String.append_assoc, String.empty_append]

theorem flatStr_nil_v2 (style : Style) : flatStr [] style = "" := by
  simp [flatStr, recursivelyConcatenate]

theorem flatSubs_nil_v2 (style : Style) : flatSubs [] style = [] := by
  simp [flatSubs, recursivelyConcatenate]

theorem flatStr_text_v2 (s : String) (rest : List Node) (style : Style) :
    flatStr (.text s :: rest) style = "%c" ++ s ++ flatStr rest style := by
  conv_lhs => simp only [flatStr, recursivelyConcatenate]
  rw [rc_acc_v2 (lsize rest) rest (Nat.le_refl _)]
  simp [String.empty_append, String.append_assoc]

theorem flatSubs_text_v2 (s : String) (rest : List Node) (style : Style) :
    flatSubs (.text s :: rest) style
      = toCSSString style :: flatSubs rest style := by
  conv_lhs => simp only [flatSubs, recursivelyConcatenate]
  rw [rc_acc_v2 (lsize rest) rest (Nat.le_refl _)]
  simp

theorem flatStr_br (props : Props) (st : Style) (cs rest : List Node)
    (style : Style) :
    flatStr (.inst "br" props st cs :: rest) style
      = "\n" ++ flatStr rest style := by
  conv_lhs => simp only [flatStr, recursivelyConcatenate]
  simp only [if_true]
  rw [rc_acc_v2 (lsize rest) rest (Nat.le_refl _)]
  simp [String.empty_append]

theorem flatSubs_br (props : Props) (st : Style) (cs rest : List Node)
    (style : Style) :
    flatSubs (.inst "br" props st cs :: rest) style = flatSubs rest style := by
  conv_lhs => simp only [flatSubs, recursivelyConcatenate]
  simp only [if_true]
  rw [rc_acc_v2 (lsize rest) rest (Nat.le_refl _)]
  simp

theorem flatStr_inst_v2 (type : String) (props : Props) (st : Style)
    (cs rest : List Node) (style : Style) (hbr : type ≠ "br") :
    flatStr (.inst type props st cs :: rest) style
      = flatStr cs (objAssign style st) ++ flatStr rest style := by
  conv_lhs => simp only [flatStr, recursivelyConcatenate]
  rw [if_neg hbr, rc_acc_v2 (lsize cs) cs (Nat.le_refl _),
      rc_acc_v2 (lsize rest) rest (Nat.le_refl _)]
  simp [String.empty_append, String.append_assoc]

theorem flatSubs_inst_v2 (type : String) (props : Props) (st : Style)
    (cs rest : List Node) (style : Style) (hbr : type ≠ "br") :
    flatSubs (.inst type props st cs :: rest) style
      = flatSubs cs (objAssign style st) ++ flatSubs rest style := by
  conv_lhs => simp only [flatSubs, recursivelyConcatenate]
  rw [if_neg hbr, rc_acc_v2 (lsize cs) cs (Nat.le_refl _),
      rc_acc_v2 (lsize rest) rest (Nat.le_refl _)]
  simp

theorem flatStr_head_v2 (n : Nat) : ∀ cs, lsize cs ≤ n → ∀ (style : Style)
    (c : Char), (flatStr cs style).data.head? = some c → c ≠ 'c' := by
  induction n with
  | zero =>
      intro cs h style c hc
      match cs with
      | [] => rw [flatStr_nil_v2] at hc; simp at hc
      | d :: rest =>
          exfalso
          have h1 := nsize_pos d
          have h2 := lsize_cons d rest
          omega
  | succ n ih =>
      intro cs h style c hc
      match cs with
      | [] => rw [flatStr_nil_v2] at hc; simp at hc
      | .text s :: rest =>
          rw [flatStr_text_v2, String.data_append, String.data_append] at hc
          have hpc : ("%c" : String).data = ['%', 'c'] := rfl
          rw [hpc] at hc
          simp at hc
          rw [← hc]
          decide
      | .inst type props st cs' :: rest =>
          have h2 := lsize_cons (.inst type props st cs') rest
          have h3 : nsize (.inst type props st cs') = 2 + lsize cs' := by
            simp [nsize]
          have hcs : lsize cs' ≤ n := by omega
          have hr : lsize rest ≤ n := by omega
          by_cases hbr : type = "br"
          · subst hbr
            rw [flatStr_br, String.data_append] at hc
            have hn : ("\n" : String).data = ['\n'] := rfl
            rw [hn] at hc
            simp at hc
            rw [← hc]
            decide
          · rw [flatStr_inst_v2 type props st cs' rest style hbr,
                String.data_append] at hc
            rcases head_of_append_cases _ _ _ hc with h5 | ⟨_, h5⟩
            · exact ih cs' hcs _ c h5
            · exact ih rest hr style c h5

theorem flat_markers_v2 (n : Nat) : ∀ cs, lsize cs ≤ n → ∀ style : Style,
    pcFreeL cs = true →
    countMarkers (flatStr cs style).data = (flatSubs cs style).length := by
  induction n with
  | zero =>
      intro cs h style _
      match cs with
      | [] => simp [flatStr_nil_v2, flatSubs_nil_v2, countMarkers]
      | d :: rest =>
          exfalso
          have h1 := nsize_pos d
          have h2 := lsize_cons d rest
          omega
  | succ n ih =>
      intro cs h style hfree
      match cs with
      | [] => simp [flatStr_nil_v2, flatSubs_nil_v2, countMarkers]
      | .text s :: rest =>
          have hr : lsize rest ≤ n := by
            have h2 := lsize_cons (.text s) rest
            simp [nsize] at h2
            omega
          simp only [pcFreeL, pcFreeN, Bool.and_eq_true, beq_iff_eq] at hfree
          rw [flatStr_text_v2, flatSubs_text_v2, String.data_append,
              String.data_append]
          have hpc : ("%c" : String).data = ['%', 'c'] := rfl
          rw [hpc, List.append_assoc]
          have hco : (['%', 'c'] ++ (s.data ++ (flatStr rest style).data))
              = '%' :: 'c' :: (s.data ++ (flatStr rest style).data) := rfl
          rw [hco, countMarkers_pc,
              countMarkers_append s.data (flatStr rest style).data
                (fun c hc => flatStr_head_v2 (lsize rest) rest (Nat.le_refl _)
                  style c hc),
              hfree.1, ih rest hr style hfree.2]
          simp
          omega
      | .inst type props st cs' :: rest =>
          have h2 := lsize_cons (.inst type props st cs') rest
          have h3 : nsize (.inst type props st cs') = 2 + lsize cs' := by
            simp [nsize]
          have hcs : lsize cs' ≤ n := by omega
          have hr : lsize rest ≤ n := by omega
          simp only [pcFreeL, pcFreeN, Bool.and_eq_true] at hfree
          by_cases hbr : type = "br"
          · subst hbr
            rw [flatStr_br, flatSubs_br, String.data_append]
            have hn : ("\n" : String).data = ['\n'] := rfl
            rw [hn, List.singleton_append,
                countMarkers_cons_of_ne '\n' _ (by decide),
                ih rest hr style hfree.2]
          · rw [flatStr_inst_v2 type props st cs' rest style hbr,
                flatSubs_inst_v2 type props st cs' rest style hbr,
                String.data_append]
            rw [countMarkers_append _ (flatStr rest style).data
                  (fun c hc => flatStr_head_v2 (lsize rest) rest (Nat.le_refl _)
                    style c hc),
                ih cs' hcs _ hfree.1.2, ih rest hr style hfree.2]
            simp

end RC2

namespace RC1

theorem flatStr_append (xs ys : List Node) (style : Style) :
    flatStr (xs ++ ys) style = flatStr xs style ++ flatStr ys style := by
  induction xs with
  | nil => simp [flatStr_nil, String.empty_append]
  | cons c rest ih =>
      cases c with
      | text s =>
          simp only [List.cons_append, flatStr_text, ih,
            String.append_assoc]
      | inst type props st cs =>
          simp only [List.cons_append, flatStr_inst, ih,
            String.append_assoc]

theorem flatSubs_append (xs ys : List Node) (style : Style) :
    flatSubs (xs ++ ys) style = flatSubs xs style ++ flatSubs ys style := by
  induction xs with
  | nil => simp [flatSubs_nil]
  | cons c rest ih =>
      cases c with
      | text s =>
          simp only [List.cons_append, flatSubs_text, ih]
      | inst type props st cs =>
          simp only [List.cons_append, flatSubs_inst, ih, List.append_assoc]

end RC1

namespace RC2

theorem flatStr_append_v2 (xs ys : List Node) (style : Style) :
    flatStr (xs ++ ys) style = flatStr xs style ++ flatStr ys style := by
  induction xs with
  | nil => simp [flatStr_nil_v2, String.empty_append]
  | cons c rest ih =>
      cases c with
      | text s =>
          simp only [List.cons_append, flatStr_text_v2, ih,
            String.append_assoc]
      | inst type props st cs =>
          by_cases hbr : type = "br"
          · subst hbr
            simp only [List.cons_append, flatStr_br, ih,
              String.append_assoc]
          · simp only [List.cons_append, flatStr_inst_v2 _ _ _ _ _ _ hbr, ih,
              String.append_assoc]

theorem flatSubs_append_v2 (xs ys : List Node) (style : Style) :
    flatSubs (xs ++ ys) style = flatSubs xs style ++ flatSubs ys style := by
  induction xs with
  | nil => simp [flatSubs_nil_v2]
  | cons c rest ih =>
      cases c with
      | text s =>
          simp only [List.cons_append, flatSubs_text_v2, ih]
      | inst type props st cs =>
          by_cases hbr : type = "br"
          · subst hbr
            simp only [List.cons_append, flatSubs_br, ih]
          · simp only [List.cons_append, flatSubs_inst_v2 _ _ _ _ _ _ hbr, ih,
              List.append_assoc]

end RC2

/-- C10: the tree flattener (in both revisions) is a homomorphism over
child-list concatenation: flattening `xs ++ ys` under an inherited style
yields the concatenation of the format strings and of the style-argument
lists of flattening `xs` and `ys` separately, and flattening the empty child
list yields the empty format string and the empty style-argument list. -/
theorem c10_flattener_homomorphism (xs ys : List Node) (s : Style) :
    (RC1.recursivelyConcatenate (xs ++ ys) "" s []
        = ((RC1.recursivelyConcatenate xs "" s []).1
             ++ (RC1.recursivelyConcatenate ys "" s []).1,
           (RC1.recursivelyConcatenate xs "" s []).2
             ++ (RC1.recursivelyConcatenate ys "" s []).2)
      ∧ RC1.recursivelyConcatenate ([] : List Node) "" s [] = ("", []))
    ∧ (RC2.recursivelyConcatenate (xs ++ ys) "" s []
        = ((RC2.recursivelyConcatenate xs "" s []).1
             ++ (RC2.recursivelyConcatenate ys "" s []).1,
           (RC2.recursivelyConcatenate xs "" s []).2
             ++ (RC2.recursivelyConcatenate ys "" s []).2)
      ∧ RC2.recursivelyConcatenate ([] : List Node) "" s [] = ("", [])) := by
  refine ⟨⟨?_, by simp [RC1.recursivelyConcatenate]⟩,
          ⟨?_, by simp [RC2.recursivelyConcatenate]⟩⟩
  · have h1 := RC1.flatStr_append xs ys s
    have h2 := RC1.flatSubs_append xs ys s
    simp only [RC1.flatStr, RC1.flatSubs] at h1 h2
    exact Prod.ext h1 h2
  · have h1 := RC2.flatStr_append_v2 xs ys s
    have h2 := RC2.flatSubs_append_v2 xs ys s
    simp only [RC2.flatStr, RC2.flatSubs] at h1 h2
    exact Prod.ext h1 h2

/-- C1 (amended): provided no text leaf and no anchor target in the tree
contains the literal character pair `%c`, the format string produced by the
flattener (of either revision) contains exactly as many `%c` pairs as the
style-argument list has entries.  Since every `%c` then stems from exactly
one text run, emitted at the same moment its serialized style is pushed, the
`i`-th marker in left-to-right order corresponds to the `i`-th style entry. -/
theorem c1_marker_count_equals_subs (cs : List Node) (style : Style)
    (hfree : pcFreeL cs = true) :
    countMarkers (RC1.recursivelyConcatenate cs "" style []).1.data
      = (RC1.recursivelyConcatenate cs "" style []).2.length
    ∧ countMarkers (RC2.recursivelyConcatenate cs "" style []).1.data
      = (RC2.recursivelyConcatenate cs "" style []).2.length :=
  ⟨RC1.flat_markers (lsize cs) cs (Nat.le_refl _) style hfree,
   RC2.flat_markers_v2 (lsize cs) cs (Nat.le_refl _) style hfree⟩

/-- Witness for C1: a concrete two-leaf tree with a styled span. -/
theorem c1_witness :
    pcFreeL [Node.inst "span" {} [("color", "red")] [Node.text "Hello"],
             Node.text "!"] = true
    ∧ (countMarkers (RC1.recursivelyConcatenate
          [Node.inst "span" {} [("color", "red")] [Node.text "Hello"],
           Node.text "!"] "" [] []).1.data
        = (RC1.recursivelyConcatenate
            [Node.inst "span" {} [("color", "red")] [Node.text "Hello"],
             Node.text "!"] "" [] []).2.length
       ∧ countMarkers (RC2.recursivelyConcatenate
          [Node.inst "span" {} [("color", "red")] [Node.text "Hello"],
           Node.text "!"] "" [] []).1.data
        = (RC2.recursivelyConcatenate
            [Node.inst "span" {} [("color", "red")] [Node.text "Hello"],
             Node.text "!"] "" [] []).2.length) :=
  ⟨by simp [pcFreeL, pcFreeN, countMarkers],
   c1_marker_count_equals_subs _ []
     (by simp [pcFreeL, pcFreeN, countMarkers])⟩

/-- Counterexample to C1 as stated: a single text leaf whose text is the
literal pair `%c` produces the format string `%c%c`, which contains two
markers, while the style-argument list has exactly one entry. -/
theorem c1_counterexample_literal_marker :
    RC1.recursivelyConcatenate [Node.text "%c"] "" [] [] = ("%c%c", [""])
    ∧ countMarkers ("%c%c" : String).data = 2
    ∧ (([""] : List String)).length = 1 := by
  refine ⟨?_, by decide, rfl⟩
  simp [RC1.recursivelyConcatenate, RC1.toCSSString]

/-- C2 (amended): in the second revision, flattening a `br` element appends
exactly one newline character, does not recurse into its children, and
pushes no style entry.  In the first revision, a `br` is flattened as a
single styled text run containing one newline: it appends `%c` followed by a
newline and pushes exactly one style entry (the inherited style merged with
the element's own style); it still never recurses into the element's actual
children. -/
theorem c2_br_behavior (props : Props) (st : Style) (cs rest : List Node)
    (string : String) (style : Style) (subs : List String) :
    RC2.recursivelyConcatenate (.inst "br" props st cs :: rest) string style
        subs
      = RC2.recursivelyConcatenate rest (string ++ "\n") style subs
    ∧ RC1.recursivelyConcatenate (.inst "br" props st cs :: rest) string style
        subs
      = RC1.recursivelyConcatenate rest (string ++ "%c" ++ "\n") style
          (subs ++ [RC1.toCSSString (objAssign style st)]) := by
  constructor
  · conv_lhs => simp only [RC2.recursivelyConcatenate]
    simp
  · conv_lhs =>
      simp only [RC1.recursivelyConcatenate, RC1.switchChildren,
        RC1.hrefSuffix]
    simp [RC1.recursivelyConcatenate, String.append_assoc]

/-- Counterexample to C2 as stated: in the first revision a `br` element
(here with a child, which is discarded) contributes `%c` followed by a
newline — not a bare newline — and pushes one entry onto the
style-argument list instead of none. -/
theorem c2_counterexample_br_consumes_slot :
    RC1.recursivelyConcatenate [Node.inst "br" {} [] [Node.text "ignored"]]
        "" [] [] = ("%c\n", [""])
    ∧ ("%c\n" : String) ≠ "\n"
    ∧ (([""] : List String)).length ≠ 0 := by
  refine ⟨?_, by decide, by decide⟩
  simp [RC1.recursivelyConcatenate, RC1.switchChildren, RC1.hrefSuffix,
    RC1.toCSSString, objAssign]

/-- C5 (amended): in the first revision, an anchor element whose `href` prop
is present and non-empty is flattened by first recursing into its children
with the merged style, then appending a literal space followed by the raw
target to the format string, with no entry pushed for the appended text; an
anchor whose `href` is absent or the empty string (which is falsy) appends
nothing.  The second revision's flattener treats anchors as ordinary
elements and never appends the target. -/
theorem c5_anchor_href (props : Props) (h : String) (st : Style)
    (cs rest : List Node) (string : String) (style : Style)
    (subs : List String) :
    (props.href = some h → h ≠ "" →
      RC1.recursivelyConcatenate (.inst "a" props st cs :: rest) string style
          subs
        = RC1.recursivelyConcatenate rest
            ((RC1.recursivelyConcatenate cs string (objAssign style st)
                subs).1 ++ " " ++ h)
            style
            (RC1.recursivelyConcatenate cs string (objAssign style st)
              subs).2)
    ∧ (props.href = none ∨ props.href = some "" →
      RC1.recursivelyConcatenate (.inst "a" props st cs :: rest) string style
          subs
        = RC1.recursivelyConcatenate rest
            (RC1.recursivelyConcatenate cs string (objAssign style st)
              subs).1
            style
            (RC1.recursivelyConcatenate cs string (objAssign style st)
              subs).2)
    ∧ RC2.recursivelyConcatenate (.inst "a" props st cs :: rest) string style
          subs
        = RC2.recursivelyConcatenate rest
            (RC2.recursivelyConcatenate cs string (objAssign style st)
              subs).1
            style
            (RC2.recursivelyConcatenate cs string (objAssign style st)
              subs).2 := by
  refine ⟨fun hh hne => ?_, fun hh => ?_, ?_⟩
  · conv_lhs =>
      simp only [RC1.recursivelyConcatenate, RC1.switchChildren,
        RC1.hrefSuffix]
    simp [hh, hne, String.append_assoc]
  · conv_lhs =>
      simp only [RC1.recursivelyConcatenate, RC1.switchChildren,
        RC1.hrefSuffix]
    rcases hh with hh | hh
    · simp [hh]
    · simp [hh]
  · conv_lhs => simp only [RC2.recursivelyConcatenate]
    simp

/-- Witness for C5: a concrete anchor carrying `href="https://google.com"`
around a single text child. -/
theorem c5_witness :
    ({ href := some "https://google.com" } : Props).href
        = some "https://google.com"
    ∧ "https://google.com" ≠ ""
    ∧ RC1.recursivelyConcatenate
        [Node.inst "a" { href := some "https://google.com" }
          [("color", "blue")] [Node.text "Google"]] "" [] []
      = RC1.recursivelyConcatenate []
          ((RC1.recursivelyConcatenate [Node.text "Google"] ""
              (objAssign [] [("color", "blue")]) []).1
            ++ " " ++ "https://google.com")
          []
          (RC1.recursivelyConcatenate [Node.text "Google"] ""
            (objAssign [] [("color", "blue")]) []).2 :=
  ⟨rfl, by decide,
   (c5_anchor_href { href := some "https://google.com" }
      "https://google.com" [("color", "blue")] [Node.text "Google"] []
      "" [] []).1 rfl (by decide)⟩

/-- Counterexample to C5 as stated: an anchor carrying an empty target
attribute (`href=""`) appends nothing in the first revision (an empty string
is falsy), and an anchor carrying a non-empty target appends nothing at all
in the second revision. -/
theorem c5_counterexample_href :
    RC1.recursivelyConcatenate
        [Node.inst "a" { href := some "" } [] [Node.text "x"]] "" [] []
      = ("%cx", [""])
    ∧ ("%cx" : String) ≠ "%cx" ++ " " ++ ""
    ∧ RC2.recursivelyConcatenate
        [Node.inst "a" { href := some "https://example.com" } []
          [Node.text "x"]] "" [] []
      = ("%cx", [""]) := by
  refine ⟨?_, by decide, ?_⟩
  · simp [RC1.recursivelyConcatenate, RC1.switchChildren, RC1.hrefSuffix,
      RC1.toCSSString, objAssign]
  · simp [RC2.recursivelyConcatenate, RC2.toCSSString, objAssign]

/-- C3 (amended): in the second revision, constructing an instance whose tag
is outside the inline allow-list fails with exactly
`"Invalid element: <tag> is not an inline element."`, and construction with
a tag inside the allow-list always succeeds.  In the first revision,
construction never fails for any tag: `createInstance` performs no
validation at all. -/
theorem c3_tag_validation :
    (∀ (type : String) (props : Props), type ∉ RC2.inlineElements →
        RC2.createInstance type props
          = .error
              ("Invalid element: " ++ type ++ " is not an inline element."))
    ∧ (∀ (type : String) (props : Props), type ∈ RC2.inlineElements →
        RC2.createInstance type props
          = .ok (Node.inst type props
              (objAssign (RC2.styleForType type) props.style) []))
    ∧ (∀ (type : String) (props : Props),
        RC1.createInstance type props
          = Node.inst type props
              (objAssign (RC1.styleForType type props) props.style) []) := by
  refine ⟨fun t p h => ?_, fun t p h => ?_, fun t p => rfl⟩
  · simp [RC2.createInstance, h]
  · simp [RC2.createInstance, h]

/-- Witness for C3: `"div"` is rejected with the exact message and `"span"`
is accepted by the second revision's constructor. -/
theorem c3_witness :
    RC2.createInstance "div" {}
        = .error "Invalid element: div is not an inline element."
    ∧ RC2.createInstance "span" {}
        = .ok (Node.inst "span" {}
            (objAssign (RC2.styleForType "span") []) []) := by
  constructor
  · have h := c3_tag_validation.1 "div" {} (by decide)
    simpa using h
  · exact c3_tag_validation.2.1 "span" {} (by decide)

/-- Counterexample to C3 as stated: in the first revision, constructing an
instance with the non-inline tag `"div"` succeeds (no error is thrown),
returning an ordinary instance. -/
theorem c3_counterexample_no_validation :
    RC1.createInstance "div" {} = Node.inst "div" {} [] []
    ∧ "div" ∉ RC2.inlineElements := by
  constructor
  · rfl
  · decide

/-- A renderable input tree handed to `render`: a host element (tag, props,
children), a text child, or a user component whose render function throws —
modelling that tree construction by the external engine can raise an error
(in the second revision `createInstance` itself can also throw). -/
inductive RTree where
  | rtext (s : String)
  | relem (type : String) (props : Props) (children : List RTree)
  | rthrow (msg : String)

/-- A call observed on the output context: either a formatted call of one of
the substitution-capable methods (format string plus style arguments), or a
call of the context's `error` method with a caught exception's message. -/
inductive CCall where
  | subCall (method : String) (format : String) (subs : List String)
  | errCall (msg : String)
deriving DecidableEq, Repr

namespace RC1

mutual

/-- Mounting in the first revision: text children become text instances,
elements become instances via `createInstance` (total in this revision) with
their children appended in order by `appendInitialChild`, and a throwing
user component raises its error. -/
def buildNode : RTree → Except String Node
  | .rtext s => .ok (.text s)
  | .rthrow m => .error m
  | .relem type props cs => do
      let children ← buildList cs
      .ok (children.foldl appendInitialChild (createInstance type props))

/-- Mounting of a child list in order (an error in any child propagates). -/
def buildList : List RTree → Except String (List Node)
  | [] => .ok []
  | t :: ts => do
      let n ← buildNode t
      let ns ← buildList ts
      .ok (n :: ns)

end

/-- `render` of the first revision: creates a fresh container and calls
`updateContainer`, which mounts and commits synchronously.  There is no
`try`/`catch`, so an error during construction escapes to the caller; the
second component records such an escaping exception. -/
def render (root : RTree) (method : String) : List CCall × Option String :=
  match buildNode root with
  | .ok node =>
      ([.subCall method (recursivelyConcatenate [node] "" [] []).1
          (recursivelyConcatenate [node] "" [] []).2], none)
  | .error e => ([], some e)

end RC1

namespace RC2

mutual

/-- Mounting in the second revision: as in the first, except that
`createInstance` validates the tag and can throw. -/
def buildNode : RTree → Except String Node
  | .rtext s => .ok (.text s)
  | .rthrow m => .error m
  | .relem type props cs => do
      let children ← buildList cs
      let inst ← createInstance type props
      .ok (children.foldl appendInitialChild inst)

/-- Mounting of a child list in order (an error in any child propagates). -/
def buildList : List RTree → Except String (List Node)
  | [] => .ok []
  | t :: ts => do
      let n ← buildNode t
      let ns ← buildList ts
      .ok (n :: ns)

end

/-- `render` of the second revision: `updateContainer` is wrapped in
`try { … } catch (e) { context.error(e) }`, so any construction error is
reported through the context's `error` method and nothing escapes to the
caller. -/
def render (root : RTree) (method : String) : List CCall × Option String :=
  match buildNode root with
  | .ok node =>
      ([.subCall method (recursivelyConcatenate [node] "" [] []).1
          (recursivelyConcatenate [node] "" [] []).2], none)
  | .error e => ([.errCall e], none)

end RC2

/-- C4 (amended): in the second revision, `render` never propagates an
exception to its caller — any error raised during tree construction is
caught at the render boundary and reported by calling the output target's
`error` method with it.  In the first revision there is no such boundary:
a construction error escapes `render` to its caller, and the error method
is not invoked. -/
theorem c4_render_error_boundary :
    (∀ (root : RTree) (method : String), (RC2.render root method).2 = none)
    ∧ (∀ (root : RTree) (method : String) (e : String),
        RC2.buildNode root = .error e →
        RC2.render root method = ([.errCall e], none))
    ∧ (∀ (root : RTree) (method : String) (e : String),
        RC1.buildNode root = .error e →
        RC1.render root method = ([], some e)) := by
  refine ⟨fun root method => ?_, fun root method e h => ?_,
          fun root method e h => ?_⟩
  · unfold RC2.render
    split <;> simp
  · unfold RC2.render
    rw [h]
  · unfold RC1.render
    rw [h]

/-- Witness for C4: an invalid tag is reported through the error method by
the second revision's `render`, and a throwing user component escapes the
first revision's `render`. -/
theorem c4_witness :
    RC2.buildNode (.relem "div" {} []) = .error
        "Invalid element: div is not an inline element."
    ∧ RC2.render (.relem "div" {} []) "log"
        = ([.errCall "Invalid element: div is not an inline element."], none)
    ∧ RC1.buildNode (.rthrow "boom") = .error "boom"
    ∧ RC1.render (.rthrow "boom") "log" = ([], some "boom") := by
  have h0 : ("div" : String) ∉ RC2.inlineElements := by decide
  have hdiv : RC2.createInstance "div" {} = .error
      "Invalid element: div is not an inline element." := by
    simp [RC2.createInstance, h0]
  have h1 : RC2.buildNode (.relem "div" {} []) = .error
      "Invalid element: div is not an inline element." := by
    simp [RC2.buildNode, RC2.buildList, hdiv, bind, Except.bind]
  have h2 : RC1.buildNode (.rthrow "boom") = .error "boom" := by
    simp [RC1.buildNode]
  exact ⟨h1, c4_render_error_boundary.2.1 _ "log" _ h1, h2,
    c4_render_error_boundary.2.2 _ "log" _ h2⟩

/-- Counterexample to C4 as stated: in the first revision, an error raised
during tree construction (a throwing user component) escapes `render` to
its caller, and the output target's error method is never invoked. -/
theorem c4_counterexample_render_throws :
    RC1.render (.rthrow "boom") "log" = ([], some "boom") := by
  simp [RC1.render, RC1.buildNode]

namespace RC1

/-- `prepareForCommit` of the first revision: an empty function — it never
throws, whatever the committed state. -/
def prepareForCommit (_committed : Bool) : Except String Unit := .ok ()

/-- `replaceContainerChildren` of the first revision: if the container has
already committed, return without any call; otherwise flatten the new child
set and invoke the container's method with the format string and the
substitutions. -/
def replaceContainerChildren (committed : Bool) (newChildren : List Node)
    (method : String) : List CCall :=
  if committed then []
  else
    [.subCall method (recursivelyConcatenate newChildren "" [] []).1
      (recursivelyConcatenate newChildren "" [] []).2]

/-- `resetAfterCommit`: sets the container's committed flag. -/
def resetAfterCommit (_committed : Bool) : Bool := true

/-- One readiness (commit) signal from the reconciliation engine:
`prepareForCommit`, then `replaceContainerChildren`, then
`resetAfterCommit`; returns the new committed flag and the calls made. -/
def commitSignal (committed : Bool) (newChildren : List Node)
    (method : String) : Except String (Bool × List CCall) := do
  let _ ← prepareForCommit committed
  .ok (resetAfterCommit committed,
    replaceContainerChildren committed newChildren method)

/-- A sequence of commit signals against one container, accumulating the
calls made (in the first revision a signal never throws). -/
def runSignals (committed : Bool) (method : String) :
    List (List Node) → Bool × List CCall
  | [] => (committed, [])
  | ch :: rest =>
      match commitSignal committed ch method with
      | .ok (c2, calls) =>
          let r := runSignals c2 method rest
          (r.1, calls ++ r.2)
      | .error _ => (committed, [])

theorem commitSignal_committed (ch : List Node) (method : String) :
    commitSignal true ch method = .ok (true, []) := rfl

theorem runSignals_committed (method : String) : ∀ sigs : List (List Node),
    runSignals true method sigs = (true, []) := by
  intro sigs
  induction sigs with
  | nil => rfl
  | cons ch rest ih => simp [runSignals, commitSignal_committed, ih]

end RC1

namespace RC2

/-- `prepareForCommit` of the second revision: throws
`"Console has already committed this root."` when the container has already
committed. -/
def prepareForCommit (committed : Bool) : Except String Unit :=
  if committed then .error "Console has already committed this root."
  else .ok ()

/-- `replaceContainerChildren` of the second revision (identical in shape to
the first revision's). -/
def replaceContainerChildren (committed : Bool) (newChildren : List Node)
    (method : String) : List CCall :=
  if committed then []
  else
    [.subCall method (recursivelyConcatenate newChildren "" [] []).1
      (recursivelyConcatenate newChildren "" [] []).2]

/-- `resetAfterCommit`: sets the container's committed flag. -/
def resetAfterCommit (_committed : Bool) : Bool := true

/-- One readiness (commit) signal: `prepareForCommit` (which may throw),
then `replaceContainerChildren`, then `resetAfterCommit`. -/
def commitSignal (committed : Bool) (newChildren : List Node)
    (method : String) : Except String (Bool × List CCall) := do
  let _ ← prepareForCommit committed
  .ok (resetAfterCommit committed,
    replaceContainerChildren committed newChildren method)

/-- A sequence of commit signals against one container; a thrown error stops
the sequence and is recorded (at `render` it would be caught and logged). -/
def runSignals (committed : Bool) (method : String) :
    List (List Node) → Bool × List CCall × Option String
  | [] => (committed, [], none)
  | ch :: rest =>
      match commitSignal committed ch method with
      | .ok (c2, calls) =>
          let r := runSignals c2 method rest
          (r.1, calls ++ r.2.1, r.2.2)
      | .error e => (committed, [], some e)

theorem commitSignal_committed_v2 (ch : List Node) (method : String) :
    commitSignal true ch method
      = .error "Console has already committed this root." := rfl

theorem runSignals_committed_v2 (method : String) : ∀ sigs : List (List Node),
    (runSignals true method sigs).2.1 = [] := by
  intro sigs
  induction sigs with
  | nil => rfl
  | cons ch rest ih => simp [runSignals, commitSignal_committed_v2]

end RC2

/-- C6 (amended): in both revisions a render session dispatches output at
most once over any sequence of commit signals.  In the first revision a
second readiness signal after the committed flag is set is silently
discarded (no output, no error).  In the second revision the second signal
is not silent: `prepareForCommit` throws
`"Console has already committed this root."` (reported at the render
boundary), and still no second dispatch occurs. -/
theorem c6_at_most_once_dispatch :
    (∀ (ch : List Node) (method : String),
        RC1.commitSignal true ch method = .ok (true, []))
    ∧ (∀ (sigs : List (List Node)) (method : String),
        ((RC1.runSignals false method sigs).2).length ≤ 1)
    ∧ (∀ (ch : List Node) (method : String),
        RC2.commitSignal true ch method
          = .error "Console has already committed this root.")
    ∧ (∀ (sigs : List (List Node)) (method : String),
        ((RC2.runSignals false method sigs).2.1).length ≤ 1) := by
  refine ⟨fun ch method => RC1.commitSignal_committed ch method,
          fun sigs method => ?_,
          fun ch method => RC2.commitSignal_committed_v2 ch method,
          fun sigs method => ?_⟩
  · cases sigs with
    | nil => simp [RC1.runSignals]
    | cons ch rest =>
        have hfirst : RC1.commitSignal false ch method
            = .ok (true, RC1.replaceContainerChildren false ch method) := rfl
        simp [RC1.runSignals, hfirst, RC1.runSignals_committed,
          RC1.replaceContainerChildren]
  · cases sigs with
    | nil => simp [RC2.runSignals]
    | cons ch rest =>
        have hfirst : RC2.commitSignal false ch method
            = .ok (true, RC2.replaceContainerChildren false ch method) := rfl
        simp [RC2.runSignals, hfirst, RC2.runSignals_committed_v2,
          RC2.replaceContainerChildren]

/-- Counterexample to C6 as stated: in the second revision a readiness
signal arriving after the committed flag is set is not silently discarded —
`prepareForCommit` throws an error instead of performing a no-op. -/
theorem c6_counterexample_second_signal_throws :
    RC2.commitSignal true [] "log"
        = .error "Console has already committed this root."
    ∧ RC2.commitSignal true [] "log" ≠ .ok (true, []) := by
  refine ⟨rfl, ?_⟩
  intro h
  simp [RC2.commitSignal, RC2.prepareForCommit, bind, Except.bind] at h

/-- A JavaScript value passed as an argument to an intercepted console
method: `undefined`, a renderable React element, or any other defined value
— for the latter we record only whether its `type` property is itself a
React element, the only fact the wrappers read from it. -/
inductive JVal where
  | undef
  | elem (t : RTree)
  | nonElem (typeIsElem : Bool)

/-- `isElement(v)` of `react-is` over our value model. -/
def isReactElement : JVal → Bool
  | .elem _ => true
  | _ => false

/-- Reading `v.type` and asking whether it is a React element: property
access on `undefined` throws; a React element's `type` is a tag string or a
component function, never an element; other objects answer as recorded. -/
def typeIsElement : JVal → Except String Bool
  | .undef => .error "TypeError: cannot read properties of undefined"
  | .elem _ => .ok false
  | .nonElem b => .ok b

/-- The observable outcome of calling a wrapped console method: either the
call was redirected to `render` with a root value and the method's name, or
it fell through to the original method with the original arguments. -/
inductive OverrideResult where
  | rendered (root : JVal) (method : String)
  | fellThrough (args : List JVal) (method : String)

namespace RC1

/-- The first revision's interception wrapper:
`if (arguments.length === 1 && isElement(root)) return render(root, context,
name); return context[name].apply(context, arguments)`. -/
def override (name : String) (args : List JVal) : OverrideResult :=
  let root := args.headD .undef
  if args.length = 1 ∧ isReactElement root = true then .rendered root name
  else .fellThrough args name

end RC1

namespace RC2

/-- The second revision's interception wrapper:
`if (arguments.length === 1 || isElement(root.type)) return render(root,
context, name); …` — note `||` and `root.type`; with no arguments the
`root.type` access throws. -/
def override (name : String) (args : List JVal) :
    Except String OverrideResult :=
  let root := args.headD .undef
  if args.length = 1 then .ok (.rendered root name)
  else do
    let b ← typeIsElement root
    if b then .ok (.rendered root name) else .ok (.fellThrough args name)

end RC2

/-- C7: the first revision's wrapper redirects to `render` with the method's
name exactly when called with exactly one argument that is a renderable
element, and otherwise falls through with all original arguments unchanged.
The second revision's wrapper contradicts this (and its own comment): with
exactly one argument it redirects regardless of whether the argument is an
element — the third conjunct evaluates it at such a failing input. -/
theorem c7_interception (name : String) (args : List JVal) :
    (args.length = 1 ∧ isReactElement (args.headD .undef) = true →
        RC1.override name args = .rendered (args.headD .undef) name)
    ∧ (¬(args.length = 1 ∧ isReactElement (args.headD .undef) = true) →
        RC1.override name args = .fellThrough args name)
    ∧ RC2.override "log" [JVal.nonElem false]
        = .ok (.rendered (JVal.nonElem false) "log") := by
  refine ⟨fun h => ?_, fun h => ?_, rfl⟩
  · simp only [RC1.override, if_pos h]
  · simp only [RC1.override, if_neg h]

/-- Witness for C7: a single element argument is redirected, and a
two-argument call falls through unchanged. -/
theorem c7_witness :
    RC1.override "log" [JVal.elem (.rtext "hi")]
        = .rendered (JVal.elem (.rtext "hi")) "log"
    ∧ RC1.override "warn" [JVal.nonElem false, JVal.nonElem false]
        = .fellThrough [JVal.nonElem false, JVal.nonElem false] "warn" := by
  constructor
  · have h := (c7_interception "log" [JVal.elem (.rtext "hi")]).1
      ⟨rfl, rfl⟩
    simpa using h
  · have h :=
      (c7_interception "warn" [JVal.nonElem false, JVal.nonElem false]).2.1
        (by simp)
    simpa using h

theorem objGet_map_update_self (k v : String) : ∀ m : Style,
    m.any (fun p => p.1 = k) = true →
    objGet (m.map (fun p => if p.1 = k then (k, v) else p)) k = some v := by
  intro m hany
  induction m with
  | nil => simp at hany
  | cons a t ih =>
      obtain ⟨a0, a1⟩ := a
      rw [List.map_cons]
      by_cases hak : a0 = k
      · subst hak
        have hhead : (if (a0, a1).1 = a0 then (a0, v) else (a0, a1))
            = (a0, v) := by simp
        rw [hhead]
        simp [objGet]
      · have hhead : (if (a0, a1).1 = k then (k, v) else (a0, a1))
            = (a0, a1) := by simp [hak]
        rw [hhead]
        simp only [List.any_cons, Bool.or_eq_true, decide_eq_true_eq] at hany
        rcases hany with h | h
        · exact absurd h hak
        · simpa [objGet, hak] using ih h

theorem objGet_map_update_other (k v k' : String) (hkk : k' ≠ k) :
    ∀ m : Style,
    objGet (m.map (fun p => if p.1 = k then (k, v) else p)) k'
      = objGet m k' := by
  intro m
  induction m with
  | nil => simp
  | cons a t ih =>
      obtain ⟨a0, a1⟩ := a
      rw [List.map_cons]
      by_cases hak : a0 = k
      · subst hak
        have hhead : (if (a0, a1).1 = a0 then (a0, v) else (a0, a1))
            = (a0, v) := by simp
        rw [hhead]
        have h1 : ¬a0 = k' := fun h => hkk h.symm
        simpa [objGet, h1] using ih
      · have hhead : (if (a0, a1).1 = k then (k, v) else (a0, a1))
            = (a0, a1) := by simp [hak]
        rw [hhead]
        by_cases hak' : a0 = k'
        · simp [objGet, hak']
        · simpa [objGet, hak'] using ih

theorem objGet_append_single (k v k' : String) : ∀ m : Style,
    ¬m.any (fun p => p.1 = k) = true →
    objGet (m ++ [(k, v)]) k'
      = if k' = k then some v else objGet m k' := by
  intro m hany
  induction m with
  | nil =>
      by_cases hkk : k' = k
      · simp [objGet, hkk]
      · have h1 : ¬k = k' := fun h => hkk h.symm
        simp [objGet, h1, hkk]
  | cons a t ih =>
      obtain ⟨a0, a1⟩ := a
      simp only [List.any_cons, Bool.or_eq_true, decide_eq_true_eq] at hany
      rw [not_or] at hany
      by_cases hak' : a0 = k'
      · subst hak'
        have hne : ¬a0 = k := hany.1
        simp [objGet, hne]
      · simpa [objGet, hak'] using ih hany.2

theorem objGet_objInsert (m : Style) (k v k' : String) :
    objGet (objInsert m k v) k'
      = if k' = k then some v else objGet m k' := by
  unfold objInsert
  by_cases hany : m.any (fun p => p.1 = k) = true
  · simp only [hany, if_true]
    by_cases hkk : k' = k
    · rw [hkk, if_pos rfl]
      exact objGet_map_update_self k v m hany
    · rw [if_neg hkk]
      exact objGet_map_update_other k v k' hkk m
  · simp only [hany, if_false, Bool.false_eq_true]
    exact objGet_append_single k v k' m hany

theorem objGet_eq_none_of_not_mem (k : String) : ∀ m : Style,
    k ∉ m.map Prod.fst → objGet m k = none := by
  intro m hnot
  induction m with
  | nil => rfl
  | cons p t ih =>
      obtain ⟨k0, v0⟩ := p
      simp only [List.map_cons, List.mem_cons, not_or] at hnot
      have hk0 : ¬k0 = k := fun h => hnot.1 h.symm
      simpa [objGet, hk0] using ih hnot.2

theorem objGet_objAssign_of_none (k : String) : ∀ (b a : Style),
    objGet b k = none → objGet (objAssign a b) k = objGet a k := by
  intro b
  induction b with
  | nil => intro a _; rfl
  | cons p b' ih =>
      intro a h
      obtain ⟨k0, v0⟩ := p
      have hk0 : ¬k0 = k := by
        intro hc
        simp [objGet, hc] at h
      have hb' : objGet b' k = none := by simpa [objGet, hk0] using h
      have hstep : objAssign a ((k0, v0) :: b')
          = objAssign (objInsert a k0 v0) b' := rfl
      rw [hstep, ih _ hb', objGet_objInsert,
        if_neg (fun h => hk0 h.symm)]

theorem objGet_objAssign_of_some (k v : String) : ∀ (b a : Style),
    (b.map Prod.fst).Nodup → objGet b k = some v →
    objGet (objAssign a b) k = some v := by
  intro b
  induction b with
  | nil =>
      intro a _ h
      simp [objGet] at h
  | cons p b' ih =>
      intro a hnd h
      obtain ⟨k0, v0⟩ := p
      have hstep : objAssign a ((k0, v0) :: b')
          = objAssign (objInsert a k0 v0) b' := rfl
      rw [hstep]
      simp only [List.map_cons, List.nodup_cons] at hnd
      by_cases hk0 : k0 = k
      · subst hk0
        have hv : v0 = v := by simpa [objGet] using h
        have hb' : objGet b' k0 = none :=
          objGet_eq_none_of_not_mem k0 b' hnd.1
        rw [objGet_objAssign_of_none k0 b' _ hb', objGet_objInsert]
        simp [hv]
      · have hb' : objGet b' k = some v := by simpa [objGet, hk0] using h
        exact ih _ hnd.2 hb'

/-- C8: style inheritance.  Merging (`Object.assign`) gives the union of the
two style maps with the nearer (second) map winning on key conflicts: a key
absent from the overriding map keeps the inherited value, a key present in
the (duplicate-free) overriding map takes its value.  A text leaf nested
under two ordinary ancestor elements is serialized with
`inherited ⊕ outer ⊕ inner`; in particular
`strong > em[style color=#21a0a0] > "Chris"` yields format string `%cChris`
with one style entry containing both `font-weight:bolder;` and
`color:#21a0a0;`. -/
theorem c8_style_inheritance :
    (∀ (a b : Style) (k : String), objGet b k = none →
        objGet (objAssign a b) k = objGet a k)
    ∧ (∀ (a b : Style) (k v : String), (b.map Prod.fst).Nodup →
        objGet b k = some v → objGet (objAssign a b) k = some v)
    ∧ (∀ (t1 t2 : String) (p1 p2 : Props) (s1 s2 : Style) (x : String)
        (style : Style), t1 ≠ "br" → t1 ≠ "img" → t2 ≠ "br" → t2 ≠ "img" →
        RC1.hrefSuffix t1 p1 = "" → RC1.hrefSuffix t2 p2 = "" →
        RC1.recursivelyConcatenate
            [.inst t1 p1 s1 [.inst t2 p2 s2 [.text x]]] "" style []
          = ("%c" ++ x,
             [RC1.toCSSString (objAssign (objAssign style s1) s2)]))
    ∧ (RC1.recursivelyConcatenate
          [appendInitialChild (RC1.createInstance "strong" {})
            (appendInitialChild
              (RC1.createInstance "em" { style := [("color", "#21a0a0")] })
              (Node.text "Chris"))] "" [] []
        = ("%cChris",
           ["font-weight:bolder;font-style:italic;color:#21a0a0;"])
       ∧ ("font-weight:bolder;font-style:italic;color:#21a0a0;" : String)
          = "" ++ "font-weight:bolder;"
            ++ "font-style:italic;color:#21a0a0;"
       ∧ ("font-weight:bolder;font-style:italic;color:#21a0a0;" : String)
          = "font-weight:bolder;font-style:italic;"
            ++ "color:#21a0a0;" ++ "") := by
  refine ⟨fun a b k h => objGet_objAssign_of_none k b a h,
          fun a b k v hnd h => objGet_objAssign_of_some k v b a hnd h,
          fun t1 t2 p1 p2 s1 s2 x style h1 h2 h3 h4 h5 h6 => ?_,
          ⟨?_, rfl, rfl⟩⟩
  · have hsw1 : RC1.switchChildren t1 [Node.inst t2 p2 s2 [Node.text x]]
        = [Node.inst t2 p2 s2 [Node.text x]] := by
      simp [RC1.switchChildren, h1, h2]
    have hsw2 : RC1.switchChildren t2 [Node.text x] = [Node.text x] := by
      simp [RC1.switchChildren, h3, h4]
    have heta : RC1.recursivelyConcatenate
        [Node.inst t1 p1 s1 [Node.inst t2 p2 s2 [Node.text x]]] "" style []
        = (RC1.flatStr
             [Node.inst t1 p1 s1 [Node.inst t2 p2 s2 [Node.text x]]] style,
           RC1.flatSubs
             [Node.inst t1 p1 s1 [Node.inst t2 p2 s2 [Node.text x]]]
             style) := rfl
    rw [heta, RC1.flatStr_inst, RC1.flatSubs_inst, hsw1, h5,
        RC1.flatStr_inst, RC1.flatSubs_inst, hsw2, h6,
        RC1.flatStr_text, RC1.flatSubs_text]
    simp [RC1.flatStr_nil, RC1.flatSubs_nil, String.append_empty]
  · simp [RC1.createInstance, RC1.styleForType, appendInitialChild,
      RC1.recursivelyConcatenate, RC1.switchChildren, RC1.hrefSuffix,
      objAssign, objInsert, RC1.toCSSString, RC1.cssProp, hyphenateAll]

/-- Witness for C8: the merge lemmas at concrete one-entry maps, and the
two-ancestor flattening at the concrete `strong`/`em` styles. -/
theorem c8_witness :
    objGet (objAssign [("x", "1")] [("y", "2")]) "x" = objGet [("x", "1")] "x"
    ∧ objGet (objAssign [("x", "1")] [("x", "2")]) "x" = some "2"
    ∧ RC1.recursivelyConcatenate
        [Node.inst "strong" {} [("fontWeight", "bolder")]
          [Node.inst "em" {} [("fontStyle", "italic"), ("color", "#21a0a0")]
            [Node.text "Chris"]]] "" [] []
      = ("%c" ++ "Chris",
         [RC1.toCSSString
            (objAssign (objAssign [] [("fontWeight", "bolder")])
              [("fontStyle", "italic"), ("color", "#21a0a0")])]) :=
  ⟨c8_style_inheritance.1 [("x", "1")] [("y", "2")] "x" rfl,
   c8_style_inheritance.2.1 [("x", "1")] [("x", "2")] "x" "2" (by simp) rfl,
   c8_style_inheritance.2.2.1 "strong" "em" {} {}
     [("fontWeight", "bolder")] [("fontStyle", "italic"), ("color", "#21a0a0")]
     "Chris" [] (by decide) (by decide) (by decide) (by decide) rfl rfl⟩

theorem isLower_false_of_isUpper (c : Char) (h : c.isUpper = true) :
    c.isLower = false := by
  unfold Char.isUpper at h
  unfold Char.isLower
  rw [Bool.and_eq_true, decide_eq_true_eq, decide_eq_true_eq] at h
  rw [Bool.and_eq_false_iff]
  left
  rw [decide_eq_false_iff_not]
  intro h2
  have h4 : c.val.toNat ≤ 90 := h.2
  have h5 : 97 ≤ c.val.toNat := h2
  omega

/-- Modelled from the spec (the rule stated by claim C9 for §4.2): insert a
hyphen at every lower-to-upper case boundary.  Spec-side definition used to
compare the two revisions' serializers against the claimed rule. -/
def specHyphenate : List Char → List Char
  | [] => []
  | [c] => [c]
  | a :: b :: rest =>
      if a.isLower ∧ b.isUpper then a :: '-' :: specHyphenate (b :: rest)
      else a :: specHyphenate (b :: rest)

/-- Modelled from the spec: the claimed property-name conversion — hyphen at
every lower-to-upper boundary, then lower-case the whole name. -/
def specKebab (p : String) : String :=
  String.mk ((specHyphenate p.data).map Char.toLower)

/-- Modelled from the spec: the serializer using the claimed conversion. -/
def specSerialize (style : Style) : String :=
  style.foldl (fun acc kv => acc ++ specKebab kv.1 ++ ":" ++ kv.2 ++ ";") ""

/-- Number of lower-to-upper case boundaries in a property name. -/
def lowerUpperBoundaries : List Char → Nat
  | [] => 0
  | [_] => 0
  | a :: b :: rest =>
      (if a.isLower ∧ b.isUpper then 1 else 0)
        + lowerUpperBoundaries (b :: rest)

/-- Every upper-case letter in the list is immediately preceded by a
lower-case letter, scanning with the given previous character. -/
def uppersAfterLowerAux (prev : Char) : List Char → Bool
  | [] => true
  | c :: rest => (!c.isUpper || prev.isLower) && uppersAfterLowerAux c rest

/-- No leading upper-case letter, and every upper-case letter immediately
preceded by a lower-case one (the names on which hyphenating before every
upper-case letter agrees with hyphenating at lower-to-upper boundaries). -/
def uppersAfterLower : List Char → Bool
  | [] => true
  | c :: rest => !c.isUpper && uppersAfterLowerAux c rest

theorem specHyphenate_cons_not_lower (b : Char) (rest : List Char)
    (h : b.isLower = false) :
    specHyphenate (b :: rest) = b :: specHyphenate rest := by
  cases rest with
  | nil => rfl
  | cons c r => simp [specHyphenate, h]

theorem hyphenateAll_eq_spec : ∀ l : List Char,
    uppersAfterLower l = true → hyphenateAll l = specHyphenate l
  | [], _ => rfl
  | [c], h => by
      simp only [uppersAfterLower, uppersAfterLowerAux, Bool.and_eq_true,
        Bool.not_eq_true'] at h
      simp [hyphenateAll, specHyphenate, h.1]
  | a :: b :: rest, h => by
      simp only [uppersAfterLower, uppersAfterLowerAux, Bool.and_eq_true,
        Bool.or_eq_true, Bool.not_eq_true'] at h
      have ha := h.1
      have hba := h.2.1
      have haux := h.2.2
      cases hb : b.isUpper with
      | false =>
          have hrec := hyphenateAll_eq_spec (b :: rest) (by
            simp [uppersAfterLower, Bool.and_eq_true, Bool.not_eq_true',
              hb, haux])
          simp only [hyphenateAll, specHyphenate, ha, hb]
          rw [← hrec]
          simp [hyphenateAll, hb]
      | true =>
          have hal : a.isLower = true := by
            rcases hba with h1 | h1
            · rw [hb] at h1
              cases h1
            · exact h1
          have hbl : b.isLower = false := isLower_false_of_isUpper b hb
          have hrest : uppersAfterLower rest = true := by
            cases rest with
            | nil => rfl
            | cons c r =>
                simp only [uppersAfterLowerAux, Bool.and_eq_true,
                  Bool.or_eq_true, Bool.not_eq_true'] at haux
                have hc : c.isUpper = false := by
                  rcases haux.1 with h1 | h1
                  · exact h1
                  · rw [hbl] at h1
                    cases h1
                simp [uppersAfterLower, Bool.and_eq_true,
                  Bool.not_eq_true', hc, haux.2]
          have hrec := hyphenateAll_eq_spec rest hrest
          simp [hyphenateAll, specHyphenate, ha, hb, hal,
            specHyphenate_cons_not_lower b rest hbl, hrec]

theorem spec_of_no_boundary : ∀ l : List Char,
    lowerUpperBoundaries l = 0 → specHyphenate l = l
  | [], _ => rfl
  | [c], _ => rfl
  | a :: b :: rest, h => by
      by_cases hab : a.isLower = true ∧ b.isUpper = true
      · rw [lowerUpperBoundaries, if_pos hab] at h
        omega
      · rw [lowerUpperBoundaries, if_neg hab] at h
        simp only [Nat.zero_add] at h
        simp [specHyphenate, hab, spec_of_no_boundary (b :: rest) h]

theorem hyphenFirst_eq_spec : ∀ l : List Char,
    lowerUpperBoundaries l ≤ 1 → hyphenFirst l = specHyphenate l
  | [], _ => rfl
  | [c], _ => rfl
  | a :: b :: rest, h => by
      by_cases hab : a.isLower = true ∧ b.isUpper = true
      · have h0 : lowerUpperBoundaries (b :: rest) = 0 := by
          rw [lowerUpperBoundaries, if_pos hab] at h
          omega
        simp [hyphenFirst, specHyphenate, hab,
          spec_of_no_boundary (b :: rest) h0]
      · have hle : lowerUpperBoundaries (b :: rest) ≤ 1 := by
          rw [lowerUpperBoundaries, if_neg hab] at h
          omega
        simp [hyphenFirst, specHyphenate, hab,
          hyphenFirst_eq_spec (b :: rest) hle]

theorem serialize_v1_eq_spec : ∀ (style : Style) (acc : String),
    (∀ kv ∈ style, uppersAfterLower kv.1.data = true) →
    style.foldl (fun acc kv => acc ++ RC1.cssProp kv.1 ++ ":" ++ kv.2 ++ ";")
        acc
      = style.foldl
          (fun acc kv => acc ++ specKebab kv.1 ++ ":" ++ kv.2 ++ ";") acc
  | [], _, _ => rfl
  | kv :: rest, acc, h => by
      have hk : RC1.cssProp kv.1 = specKebab kv.1 := by
        unfold RC1.cssProp specKebab
        rw [hyphenateAll_eq_spec kv.1.data (h kv (List.mem_cons_self _ _))]
      rw [List.foldl_cons, List.foldl_cons, hk]
      exact serialize_v1_eq_spec rest _
        (fun kv2 hm => h kv2 (List.mem_cons_of_mem _ hm))

theorem serialize_v2_eq_spec : ∀ (style : Style) (acc : String),
    (∀ kv ∈ style, lowerUpperBoundaries kv.1.data ≤ 1) →
    style.foldl (fun acc kv => acc ++ RC2.cssProp kv.1 ++ ":" ++ kv.2 ++ ";")
        acc
      = style.foldl
          (fun acc kv => acc ++ specKebab kv.1 ++ ":" ++ kv.2 ++ ";") acc
  | [], _, _ => rfl
  | kv :: rest, acc, h => by
      have hk : RC2.cssProp kv.1 = specKebab kv.1 := by
        unfold RC2.cssProp specKebab
        rw [hyphenFirst_eq_spec kv.1.data (h kv (List.mem_cons_self _ _))]
      rw [List.foldl_cons, List.foldl_cons, hk]
      exact serialize_v2_eq_spec rest _
        (fun kv2 hm => h kv2 (List.mem_cons_of_mem _ hm))

/-- C9 (amended): the first revision's serializer hyphenates before every
upper-case letter; this coincides with the claimed
hyphen-at-every-lower-to-upper-boundary rule exactly on property names whose
upper-case letters are all immediately preceded by lower-case letters.  The
second revision's regular expression has no global flag, so it hyphenates
only the first lower-to-upper boundary; it coincides with the claimed rule
exactly on names with at most one such boundary.  On other names both
revisions deviate from the claimed rule. -/
theorem c9_css_property_hyphenation :
    (∀ style : Style, (∀ kv ∈ style, uppersAfterLower kv.1.data = true) →
        RC1.toCSSString style = specSerialize style)
    ∧ (∀ style : Style,
        (∀ kv ∈ style, lowerUpperBoundaries kv.1.data ≤ 1) →
        RC2.toCSSString style = specSerialize style) :=
  ⟨fun style h => serialize_v1_eq_spec style "" h,
   fun style h => serialize_v2_eq_spec style "" h⟩

/-- Witness for C9: the typical property names `fontWeight` and
`backgroundColor` are converted identically to the claimed rule by both
revisions. -/
theorem c9_witness :
    RC1.toCSSString [("fontWeight", "bolder")]
        = specSerialize [("fontWeight", "bolder")]
    ∧ RC2.toCSSString [("backgroundColor", "yellow")]
        = specSerialize [("backgroundColor", "yellow")] :=
  ⟨c9_css_property_hyphenation.1 [("fontWeight", "bolder")]
     (by intro kv hm; simp at hm; rw [hm]; decide),
   c9_css_property_hyphenation.2 [("backgroundColor", "yellow")]
     (by intro kv hm; simp at hm; rw [hm]; decide)⟩

/-- Counterexample to C9 as stated: on `borderTopColor` (two lower-to-upper
boundaries) the second revision hyphenates only the first boundary,
producing `border-topcolor:red;` instead of the claimed
`border-top-color:red;`; and on `XColor` (a leading upper-case letter, not a
lower-to-upper boundary) the first revision produces `-x-color:red;` while
the claimed rule produces `xcolor:red;`. -/
theorem c9_counterexample_hyphenation :
    RC2.toCSSString [("borderTopColor", "red")] = "border-topcolor:red;"
    ∧ specSerialize [("borderTopColor", "red")] = "border-top-color:red;"
    ∧ ("border-topcolor:red;" : String) ≠ "border-top-color:red;"
    ∧ RC1.toCSSString [("XColor", "red")] = "-x-color:red;"
    ∧ specSerialize [("XColor", "red")] = "xcolor:red;"
    ∧ ("-x-color:red;" : String) ≠ "xcolor:red;" :=
  ⟨rfl, rfl, by decide, rfl, rfl, by decide⟩
